import Mathlib

/-!
Verification of the ACOUST MFSK-16 acoustic modem (src/src/App.jsx).

The packet codec, symbol detector and receiver state machine are embedded
shallowly: JavaScript 32-bit integer operations are modelled on `Int`/`Nat`
with explicit wrap-around, byte buffers as `List Nat`, times in milliseconds
as `Int`, and normalized spectral magnitudes as `Rat`.
-/

namespace Acoust

/-- JS `ToUint32`: the unsigned 32-bit pattern of an integer. -/
def toUint32 (x : Int) : Nat := (x % 2 ^ 32).toNat

/-- JS `ToInt32`: wrap an integer to the signed 32-bit range. -/
def toInt32 (x : Int) : Int :=
  if x % 2 ^ 32 < 2 ^ 31 then x % 2 ^ 32 else x % 2 ^ 32 - 2 ^ 32

/-- JS signed right shift `x >> k` (arithmetic shift of the int32 value). -/
def jsShr (x : Int) (k : Nat) : Int := toInt32 x / 2 ^ k

/-- JS left shift `x << k` (int32 wrap-around). -/
def jsShl (x : Int) (k : Nat) : Int := toInt32 (x * 2 ^ k)

/-- JS bitwise `x & y` on int32 values. -/
def jsAnd (x y : Int) : Int := toInt32 ((toUint32 x &&& toUint32 y : Nat) : Int)

/-- JS bitwise `x | y` on int32 values. -/
def jsOr (x y : Int) : Int := toInt32 ((toUint32 x ||| toUint32 y : Nat) : Int)

/-- Clamp one index argument of JS `Array.prototype.slice` (negative counts
from the end). -/
def jsSliceIdx (len : Nat) (i : Int) : Nat :=
  if i < 0 then (len + i).toNat else min i.toNat len

/-- JS `slice(s, e)` on a list. -/
def jsSlice {α : Type} (l : List α) (s e : Int) : List α :=
  (l.take (jsSliceIdx l.length e)).drop (jsSliceIdx l.length s)

/-- `MAGIC = [0x41, 0x43, 0x53, 0x54]`. -/
def MAGIC : List Nat := [0x41, 0x43, 0x53, 0x54]

/-- `TYPE_TEXT = 0x54`. -/
def TYPE_TEXT : Nat := 0x54

/-- `TYPE_IMAGE = 0x49`. -/
def TYPE_IMAGE : Nat := 0x49

/-- `HEADER_LEN = 16`. -/
def HEADER_LEN : Nat := 16

/-- `PREAMBLE_SYMS = 4`. -/
def PREAMBLE_SYMS : Int := 4

/-- Parsed header record returned by `parseHeader`.  `payloadLen`, `imgW` and
`imgH` are JS int32 results, hence `Int`. -/
structure Header where
  type : Nat
  payloadLen : Int
  imgW : Int
  imgH : Int
  deriving Repr, DecidableEq

/-- `buildHeader(type, payloadLen, imgW = 0, imgH = 0)`: the 16-byte header.
Bytes 13..15 stay at the `Uint8Array` zero initialisation; stores truncate
to a byte. -/
def buildHeader (type payloadLen imgW imgH : Nat) : List Nat :=
  [ 0x41, 0x43, 0x53, 0x54,
    type % 256,
    (jsAnd (jsShr (payloadLen : Int) 24) 0xff).toNat,
    (jsAnd (jsShr (payloadLen : Int) 16) 0xff).toNat,
    (jsAnd (jsShr (payloadLen : Int) 8) 0xff).toNat,
    (jsAnd (payloadLen : Int) 0xff).toNat,
    (jsAnd (jsShr (imgW : Int) 8) 0xff).toNat,
    (jsAnd (imgW : Int) 0xff).toNat,
    (jsAnd (jsShr (imgH : Int) 8) 0xff).toNat,
    (jsAnd (imgH : Int) 0xff).toNat,
    0, 0, 0 ]

/-- `parseHeader(bytes)`: `null` when shorter than 16 bytes or when one of the
first 4 bytes differs from `MAGIC`; otherwise the decoded fields, with the
payload length assembled by JS `<<`/`|` (a signed int32 result). -/
def parseHeader (bytes : List Nat) : Option Header :=
  if bytes.length < HEADER_LEN then none
  else if (List.range 4).any (fun i => bytes.getD i 0 != MAGIC.getD i 0) then none
  else some
    { type := bytes.getD 4 0,
      payloadLen :=
        jsOr (jsOr (jsOr (jsShl (bytes.getD 5 0 : Int) 24)
                         (jsShl (bytes.getD 6 0 : Int) 16))
                   (jsShl (bytes.getD 7 0 : Int) 8))
             (bytes.getD 8 0 : Int),
      imgW := jsOr (jsShl (bytes.getD 9 0 : Int) 8) (bytes.getD 10 0 : Int),
      imgH := jsOr (jsShl (bytes.getD 11 0 : Int) 8) (bytes.getD 12 0 : Int) }

/-- `bytesToNibbles(bytes)`: per byte push `(b >> 4) & 0xf` then `b & 0xf`. -/
def bytesToNibbles : List Nat → List Nat
  | [] => []
  | b :: rest =>
      (jsAnd (jsShr (b : Int) 4) 0xf).toNat ::
      (jsAnd (b : Int) 0xf).toNat :: bytesToNibbles rest

/-- `nibblesToBytes(nibbles)`: pair consecutive nibbles into
`((hi & 0xf) << 4) | (lo & 0xf)`, dropping a trailing unpaired nibble. -/
def nibblesToBytes : List Nat → List Nat
  | hi :: lo :: rest =>
      (jsOr (jsShl (jsAnd (hi : Int) 0xf) 4) (jsAnd (lo : Int) 0xf)).toNat ::
      nibblesToBytes rest
  | _ => []

/-- The best-symbol scan of `detectSymbol`: fold over the 16 channel
magnitudes with `bestSym = -1, bestMag = 0`, updating on a strict `>`. -/
def detectBest (mags : List Rat) : Int × Rat :=
  mags.enum.foldl
    (fun b p => if p.2 > b.2 then ((p.1 : Int), p.2) else b)
    (-1, 0)

/-- The per-window tally: `counts = Array(16).fill(0)`, then `counts[s]++`
for each valid sample. -/
def tally (valid : List Int) : List Nat :=
  valid.foldl (fun cs s => cs.set s.toNat (cs.getD s.toNat 0 + 1))
    (List.replicate 16 0)

/-- `Math.max(...counts)` over a list of naturals. -/
def jsMax (l : List Nat) : Nat := l.foldl max 0

/-- `counts.indexOf(Math.max(...counts))`: the majority-vote winner of the
valid samples of a closed symbol window. -/
def voteWinner (valid : List Int) : Nat :=
  (tally valid).indexOf (jsMax (tally valid))

/-- Outcome reported by `finalizePacket`. -/
inductive FinalizeResult where
  | incomplete (gotBytes : Nat)
  | badHeader
  | textReceived (payload : List Nat)
  | imageReceived (imgW imgH : Int) (payload : List Nat)
  | unknownType (t : Nat)
  deriving Repr, DecidableEq

/-- The payload carried by a dispatched finalize outcome, when one exists. -/
def FinalizeResult.payloadOf : FinalizeResult → Option (List Nat)
  | .textReceived p => some p
  | .imageReceived _ _ p => some p
  | _ => none

/-- `finalizePacket` on the accumulated nibbles: truncate to even length,
report `INCOMPLETE` below one header, parse the header, slice the payload to
the declared length and dispatch on the type byte. -/
def finalizePacket (nibbles : List Nat) : FinalizeResult :=
  let trimNib := nibbles.take (nibbles.length / 2 * 2)
  if trimNib.length < HEADER_LEN * 2 then .incomplete (trimNib.length / 2)
  else
    let allBytes := nibblesToBytes trimNib
    match parseHeader allBytes with
    | none => .badHeader
    | some hdr =>
        let payload := jsSlice allBytes (HEADER_LEN : Int) ((HEADER_LEN : Int) + hdr.payloadLen)
        if hdr.type = TYPE_TEXT then .textReceived payload
        else if hdr.type = TYPE_IMAGE then .imageReceived hdr.imgW hdr.imgH payload
        else .unknownType hdr.type

/-- Receiver machine state: `RX_IDLE`, `RX_PREAMBLE` (the time-based SYNC
wait), `RX_DATA`. -/
inductive RxMode where
  | idle
  | sync
  | data
  deriving Repr, DecidableEq

/-- The mutable decode refs of the receiver session.  Times are in
milliseconds. -/
structure Session where
  mode : RxMode
  nibbles : List Nat
  sampleBuf : List (Option Int)
  preambleAt : Int
  preambleEndsAt : Int
  silenceCount : Nat
  dataStart : Int
  lastSymTime : Int
  deriving Repr, DecidableEq

/-- `resetRxState()`: back to `RX_IDLE` with cleared buffers and timestamps
(`lastSymTimeRef` is not touched by the source). -/
def resetSession (s : Session) : Session :=
  { s with mode := .idle, nibbles := [], sampleBuf := [],
           preambleAt := 0, preambleEndsAt := 0,
           silenceCount := 0, dataStart := 0 }

/-- Protocol-relevant events emitted during a tick. -/
inductive RxEvent where
  | preambleDetected
  | receivingData
  | timeout
  | listening
  | finalized (r : FinalizeResult)
  deriving Repr, DecidableEq

/-- `liveUpdateRxImage()`: once a header's worth of nibbles is in, re-parse
it; for an `IMAGE` header whose declared total has been accumulated, finalize
immediately. -/
def liveUpdate (s : Session) : Session × List RxEvent :=
  if s.nibbles.length < HEADER_LEN * 2 then (s, [])
  else
    match parseHeader (nibblesToBytes (s.nibbles.take (HEADER_LEN * 2))) with
    | none => (s, [])
    | some hdr =>
        if hdr.type ≠ TYPE_IMAGE then (s, [])
        else if ((HEADER_LEN : Int) + hdr.payloadLen) * 2 ≤ (s.nibbles.length : Int) then
          (resetSession s, [.finalized (finalizePacket s.nibbles)])
        else (s, [])

/-- One magnitude snapshot handed to a tick: the clock reading, the preamble
magnitude and the 16 data-channel magnitudes. -/
structure TickInput where
  now : Int
  mp : Rat
  mags : List Rat

/-- One tick of the `startSampling` interval: the `IDLE` / `PREAMBLE` /
`DATA` state machine of the source, with `sd` the symbol duration and
`thresh` the detection threshold. -/
def rxTick (sd : Int) (thresh : Rat) (inp : TickInput) (s : Session) :
    Session × List RxEvent :=
  let det := detectBest inp.mags
  match s.mode with
  | .idle =>
      if inp.mp > thresh then
        let pAt := if s.preambleAt = 0 then inp.now else s.preambleAt
        if inp.now - pAt > sd * 1 then
          ({ s with preambleAt := pAt,
                    preambleEndsAt := pAt + PREAMBLE_SYMS * sd + 60,
                    mode := .sync }, [.preambleDetected])
        else ({ s with preambleAt := pAt }, [])
      else ({ s with preambleAt := 0 }, [])
  | .sync =>
      if s.preambleEndsAt ≤ inp.now then
        ({ s with mode := .data, nibbles := [], sampleBuf := [],
                  lastSymTime := inp.now, silenceCount := 0,
                  dataStart := inp.now }, [.receivingData])
      else (s, [])
  | .data =>
      if inp.now - s.dataStart > 45000 then
        (resetSession s, [.timeout])
      else
        let s1 :=
          if det.2 > thresh then
            { s with sampleBuf := s.sampleBuf ++ [some det.1], silenceCount := 0 }
          else
            { s with sampleBuf := s.sampleBuf ++ [none] }
        if sd ≤ inp.now - s1.lastSymTime then
          let valid := s1.sampleBuf.filterMap id
          if 0 < valid.length then
            let s2 := { s1 with nibbles := s1.nibbles ++ [voteWinner valid],
                                silenceCount := 0 }
            let r := liveUpdate s2
            ({ r.1 with sampleBuf := [], lastSymTime := inp.now }, r.2)
          else
            let s2 := { s1 with silenceCount := s1.silenceCount + 1 }
            if 5 ≤ s2.silenceCount ∧ HEADER_LEN * 2 ≤ s2.nibbles.length then
              (resetSession s2, [.finalized (finalizePacket s2.nibbles)])
            else if 10 ≤ s2.silenceCount ∧ s2.nibbles.length = 0 then
              (resetSession s2, [.listening])
            else ({ s2 with sampleBuf := [], lastSymTime := inp.now }, [])
        else (s1, [])

end Acoust

namespace Acoust

/-! ### Arithmetic facts about the JS integer model -/

lemma toUint32_natCast (a : Nat) : toUint32 (a : Int) = a % 2 ^ 32 := by
  unfold toUint32; omega

lemma toUint32_lt (x : Int) : toUint32 x < 2 ^ 32 := by
  unfold toUint32; omega

lemma toInt32_natCast_small (a : Nat) (h : a < 2 ^ 31) : toInt32 (a : Int) = a := by
  unfold toInt32; split <;> omega

lemma toUint32_toInt32 (x : Int) : toUint32 (toInt32 x) = toUint32 x := by
  unfold toUint32 toInt32; split <;> omega

lemma lor_disjoint {a b : Nat} (k : Nat) (ha : a % 2 ^ k = 0) (hb : b < 2 ^ k) :
    a ||| b = a + b := by
  obtain ⟨c, rfl⟩ := Nat.dvd_of_mod_eq_zero ha
  rw [← Nat.mul_add_lt_is_or hb c]

lemma jsAnd_255 (x : Int) : jsAnd x 255 = ((toUint32 x % 256 : Nat) : Int) := by
  unfold jsAnd
  have h255 : toUint32 255 = 255 := by decide
  rw [h255, show (255 : Nat) = 2 ^ 8 - 1 by norm_num, Nat.and_pow_two_sub_one_eq_mod]
  unfold toInt32
  split <;> omega

lemma jsAnd_15 (x : Int) : jsAnd x 15 = ((toUint32 x % 16 : Nat) : Int) := by
  unfold jsAnd
  have h15 : toUint32 15 = 15 := by decide
  rw [h15, show (15 : Nat) = 2 ^ 4 - 1 by norm_num, Nat.and_pow_two_sub_one_eq_mod]
  unfold toInt32
  split <;> omega

lemma jsAnd_255_toNat (x : Int) : (jsAnd x 255).toNat = toUint32 x % 256 := by
  rw [jsAnd_255]; omega

lemma jsAnd_15_toNat (x : Int) : (jsAnd x 15).toNat = toUint32 x % 16 := by
  rw [jsAnd_15]; omega

lemma shr24_byte (len : Nat) (hl : len < 2 ^ 32) :
    (jsAnd (jsShr (len : Int) 24) 255).toNat = len / 2 ^ 24 % 256 := by
  rw [jsAnd_255_toNat]
  unfold jsShr toInt32 toUint32
  split <;> omega

lemma shr16_byte (len : Nat) (hl : len < 2 ^ 32) :
    (jsAnd (jsShr (len : Int) 16) 255).toNat = len / 2 ^ 16 % 256 := by
  rw [jsAnd_255_toNat]
  unfold jsShr toInt32 toUint32
  split <;> omega

lemma shr8_byte (len : Nat) (hl : len < 2 ^ 32) :
    (jsAnd (jsShr (len : Int) 8) 255).toNat = len / 2 ^ 8 % 256 := by
  rw [jsAnd_255_toNat]
  unfold jsShr toInt32 toUint32
  split <;> omega

lemma and_byte (len : Nat) :
    (jsAnd (len : Int) 255).toNat = len % 256 := by
  rw [jsAnd_255_toNat, toUint32_natCast]; omega

lemma jsShl_toUint32 (b : Nat) (k : Nat) (h : b * 2 ^ k < 2 ^ 32) :
    toUint32 (jsShl (b : Int) k) = b * 2 ^ k := by
  unfold jsShl
  rw [toUint32_toInt32]
  have e : ((b : Int) * 2 ^ k) = ((b * 2 ^ k : Nat) : Int) := by push_cast; ring
  rw [e, toUint32_natCast]
  omega

lemma jsOr_eq (x y : Int) (k : Nat) (hx : toUint32 x % 2 ^ k = 0) (hy : toUint32 y < 2 ^ k) :
    jsOr x y = toInt32 ((toUint32 x + toUint32 y : Nat) : Int) := by
  unfold jsOr
  rw [lor_disjoint k hx hy]

/-! ### Packet codec lemmas -/

lemma parse_payloadLen (b5 b6 b7 b8 : Nat)
    (h5 : b5 < 256) (h6 : b6 < 256) (h7 : b7 < 256) (h8 : b8 < 256) :
    jsOr (jsOr (jsOr (jsShl (b5 : Int) 24) (jsShl (b6 : Int) 16)) (jsShl (b7 : Int) 8)) (b8 : Int)
      = toInt32 ((b5 * 2 ^ 24 + b6 * 2 ^ 16 + b7 * 2 ^ 8 + b8 : Nat) : Int) := by
  have u5 : toUint32 (jsShl (b5 : Int) 24) = b5 * 2 ^ 24 := jsShl_toUint32 _ _ (by nlinarith)
  have u6 : toUint32 (jsShl (b6 : Int) 16) = b6 * 2 ^ 16 := jsShl_toUint32 _ _ (by nlinarith)
  have u7 : toUint32 (jsShl (b7 : Int) 8) = b7 * 2 ^ 8 := jsShl_toUint32 _ _ (by nlinarith)
  have u8 : toUint32 (b8 : Int) = b8 := by rw [toUint32_natCast]; omega
  have e1 : jsOr (jsShl (b5 : Int) 24) (jsShl (b6 : Int) 16)
      = toInt32 ((b5 * 2 ^ 24 + b6 * 2 ^ 16 : Nat) : Int) := by
    rw [jsOr_eq _ _ 24 (by rw [u5]; omega) (by rw [u6]; nlinarith), u5, u6]
  have v1 : toUint32 (jsOr (jsShl (b5 : Int) 24) (jsShl (b6 : Int) 16))
      = b5 * 2 ^ 24 + b6 * 2 ^ 16 := by
    rw [e1, toUint32_toInt32, toUint32_natCast]; omega
  have e2 : jsOr (jsOr (jsShl (b5 : Int) 24) (jsShl (b6 : Int) 16)) (jsShl (b7 : Int) 8)
      = toInt32 ((b5 * 2 ^ 24 + b6 * 2 ^ 16 + b7 * 2 ^ 8 : Nat) : Int) := by
    rw [jsOr_eq _ _ 16 (by rw [v1]; omega) (by rw [u7]; nlinarith), v1, u7]
  have v2 : toUint32 (jsOr (jsOr (jsShl (b5 : Int) 24) (jsShl (b6 : Int) 16)) (jsShl (b7 : Int) 8))
      = b5 * 2 ^ 24 + b6 * 2 ^ 16 + b7 * 2 ^ 8 := by
    rw [e2, toUint32_toInt32, toUint32_natCast]; omega
  rw [jsOr_eq _ _ 8 (by rw [v2]; omega) (by rw [u8]; omega), v2, u8]

lemma parse_u16 (b9 b10 : Nat) (h9 : b9 < 256) (h10 : b10 < 256) :
    jsOr (jsShl (b9 : Int) 8) (b10 : Int) = ((b9 * 256 + b10 : Nat) : Int) := by
  have u9 : toUint32 (jsShl (b9 : Int) 8) = b9 * 2 ^ 8 := jsShl_toUint32 _ _ (by nlinarith)
  have u10 : toUint32 (b10 : Int) = b10 := by rw [toUint32_natCast]; omega
  rw [jsOr_eq _ _ 8 (by rw [u9]; omega) (by rw [u10]; omega), u9, u10,
    toInt32_natCast_small _ (by nlinarith)]
  norm_num

lemma buildHeader_bytes (type len w h : Nat) (hl : len < 2 ^ 32)
    (hw : w < 2 ^ 16) (hh : h < 2 ^ 16) :
    buildHeader type len w h =
      [0x41, 0x43, 0x53, 0x54, type % 256,
       len / 2 ^ 24 % 256, len / 2 ^ 16 % 256, len / 2 ^ 8 % 256, len % 256,
       w / 2 ^ 8 % 256, w % 256, h / 2 ^ 8 % 256, h % 256, 0, 0, 0] := by
  unfold buildHeader
  rw [shr24_byte len hl, shr16_byte len hl, shr8_byte len hl, and_byte len,
      shr8_byte w (by omega), and_byte w, shr8_byte h (by omega), and_byte h]

lemma parseHeader_explicit (b4 b5 b6 b7 b8 b9 b10 b11 b12 b13 b14 b15 : Nat) :
    parseHeader [0x41, 0x43, 0x53, 0x54, b4, b5, b6, b7, b8, b9, b10, b11, b12, b13, b14, b15]
      = some { type := b4,
               payloadLen := jsOr (jsOr (jsOr (jsShl (b5 : Int) 24) (jsShl (b6 : Int) 16))
                   (jsShl (b7 : Int) 8)) (b8 : Int),
               imgW := jsOr (jsShl (b9 : Int) 8) (b10 : Int),
               imgH := jsOr (jsShl (b11 : Int) 8) (b12 : Int) } := by
  simp [parseHeader, HEADER_LEN, MAGIC, List.getD, List.range_succ]

lemma hi_nibble (b : Nat) (hb : b < 256) :
    (jsAnd (jsShr (b : Int) 4) 0xf).toNat = b / 16 := by
  rw [jsAnd_15_toNat]
  unfold jsShr
  rw [toInt32_natCast_small b (by omega),
      show ((2 : Int) ^ 4) = ((16 : Nat) : Int) by norm_num,
      ← Int.ofNat_ediv, toUint32_natCast]
  omega

lemma lo_nibble (b : Nat) :
    (jsAnd (b : Int) 0xf).toNat = b % 16 := by
  rw [jsAnd_15_toNat, toUint32_natCast]; omega

lemma pair_byte (a b : Nat) :
    (jsOr (jsShl (jsAnd (a : Int) 0xf) 4) (jsAnd (b : Int) 0xf)).toNat
      = a % 16 * 16 + b % 16 := by
  rw [jsAnd_15 a, jsAnd_15 b, toUint32_natCast, toUint32_natCast]
  have ha : a % 2 ^ 32 % 16 = a % 16 := by omega
  have hb : b % 2 ^ 32 % 16 = b % 16 := by omega
  rw [ha, hb]
  have u1 : toUint32 (jsShl ((a % 16 : Nat) : Int) 4) = a % 16 * 2 ^ 4 :=
    jsShl_toUint32 _ _ (by omega)
  have u2 : toUint32 ((b % 16 : Nat) : Int) = b % 16 := by rw [toUint32_natCast]; omega
  rw [jsOr_eq _ _ 4 (by rw [u1]; omega) (by rw [u2]; omega), u1, u2,
      toInt32_natCast_small _ (by omega)]
  omega

lemma bytesToNibbles_cons (b : Nat) (hb : b < 256) (rest : List Nat) :
    bytesToNibbles (b :: rest) = b / 16 :: b % 16 :: bytesToNibbles rest := by
  rw [bytesToNibbles, hi_nibble b hb, lo_nibble b]

lemma nibblesToBytes_cons₂ (a b : Nat) (rest : List Nat) :
    nibblesToBytes (a :: b :: rest) = (a % 16 * 16 + b % 16) :: nibblesToBytes rest := by
  rw [nibblesToBytes, pair_byte]

lemma roundtrip_even : ∀ ns : List Nat, ns.length % 2 = 0 → (∀ x ∈ ns, x < 16) →
    bytesToNibbles (nibblesToBytes ns) = ns
  | [], _, _ => rfl
  | [a], he, _ => by simp at he
  | a :: b :: rest, he, h => by
      have ha : a < 16 := h a (by simp)
      have hb : b < 16 := h b (by simp)
      rw [nibblesToBytes_cons₂, bytesToNibbles_cons _ (by omega),
          roundtrip_even rest (by simp only [List.length_cons] at he; omega)
            (fun x hx => h x (by simp [hx]))]
      simp only [List.cons.injEq]
      exact ⟨by omega, by omega, trivial⟩

lemma nibblesToBytes_mask : ∀ ms : List Nat,
    nibblesToBytes ms = nibblesToBytes (ms.map (· % 16))
  | [] => rfl
  | [a] => rfl
  | a :: b :: rest => by
      simp only [List.map_cons]
      rw [nibblesToBytes_cons₂, nibblesToBytes_cons₂, nibblesToBytes_mask rest]
      congr 1
      omega

lemma roundtrip_odd : ∀ os : List Nat, os.length % 2 = 1 → (∀ x ∈ os, x < 16) →
    bytesToNibbles (nibblesToBytes os) = os.dropLast
  | [], he, _ => by simp at he
  | [a], _, _ => rfl
  | a :: b :: rest, he, h => by
      have ha : a < 16 := h a (by simp)
      have hb : b < 16 := h b (by simp)
      have hrest : rest.length % 2 = 1 := by simp only [List.length_cons] at he; omega
      rw [nibblesToBytes_cons₂, bytesToNibbles_cons _ (by omega),
          roundtrip_odd rest hrest (fun x hx => h x (by simp [hx]))]
      cases rest with
      | nil => simp at hrest
      | cons c t =>
          simp only [List.dropLast_cons₂, List.cons.injEq]
          exact ⟨by omega, by omega, trivial⟩

end Acoust

namespace Acoust

/-- C1: for every byte sequence (entries in [0,255]),
`nibblesToBytes (bytesToNibbles B) = B`, and `bytesToNibbles` emits the high
nibble of each byte first, then the low nibble. -/
theorem claim_C1 (bytes : List Nat) (h : ∀ b ∈ bytes, b < 256) :
    nibblesToBytes (bytesToNibbles bytes) = bytes ∧
    bytesToNibbles bytes = bytes.flatMap (fun b => [b / 16, b % 16]) := by
  induction bytes with
  | nil => exact ⟨rfl, rfl⟩
  | cons b rest ih =>
      have hb : b < 256 := h b (by simp)
      have hrest : ∀ x ∈ rest, x < 256 := fun x hx => h x (by simp [hx])
      obtain ⟨ih1, ih2⟩ := ih hrest
      rw [bytesToNibbles_cons b hb]
      constructor
      · rw [nibblesToBytes, ih1, pair_byte]
        congr 1
        omega
      · simp [List.flatMap_cons, ih2]

/-- Witness for C1 at the concrete byte sequence `[0xAB, 0x00, 0xFF]`. -/
theorem claim_C1_witness :
    nibblesToBytes (bytesToNibbles [0xAB, 0x00, 0xFF]) = [0xAB, 0x00, 0xFF] :=
  (claim_C1 [0xAB, 0x00, 0xFF] (by decide)).1

/-- C2 (amended): `parseHeader (buildHeader type len w h)` recovers the four
fields exactly for `type < 2^8`, `w, h < 2^16` and `len < 2^31`; for
`len ∈ [2^31, 2^32)` the parsed length is the wrapped (negative) int32
value — see the counterexample. -/
theorem claim_C2 (type len w h : Nat)
    (ht : type < 256) (hl : len < 2 ^ 31) (hw : w < 2 ^ 16) (hh : h < 2 ^ 16) :
    parseHeader (buildHeader type len w h) =
      some { type := type, payloadLen := (len : Int), imgW := (w : Int), imgH := (h : Int) } := by
  rw [buildHeader_bytes type len w h (by omega) hw hh, parseHeader_explicit]
  rw [parse_payloadLen _ _ _ _ (Nat.mod_lt _ (by norm_num)) (Nat.mod_lt _ (by norm_num))
        (Nat.mod_lt _ (by norm_num)) (Nat.mod_lt _ (by norm_num)),
      parse_u16 _ _ (Nat.mod_lt _ (by norm_num)) (Nat.mod_lt _ (by norm_num)),
      parse_u16 _ _ (Nat.mod_lt _ (by norm_num)) (Nat.mod_lt _ (by norm_num))]
  have hsum : len / 2 ^ 24 % 256 * 2 ^ 24 + len / 2 ^ 16 % 256 * 2 ^ 16
      + len / 2 ^ 8 % 256 * 2 ^ 8 + len % 256 = len := by omega
  have hw' : w / 2 ^ 8 % 256 * 256 + w % 256 = w := by omega
  have hh' : h / 2 ^ 8 % 256 * 256 + h % 256 = h := by omega
  rw [hsum, hw', hh', toInt32_natCast_small len (by omega)]
  simp [Header.mk.injEq]
  omega

/-- C2 counterexample: at `len = 2^31` (a valid uint32) the round-trip does
not recover `len`: the parsed payload length is the negative int32 value. -/
theorem claim_C2_counterexample :
    parseHeader (buildHeader 0x54 (2 ^ 31) 0 0) =
      some { type := 0x54, payloadLen := -(2 ^ 31), imgW := 0, imgH := 0 } ∧
    (-(2 ^ 31) : Int) ≠ ((2 ^ 31 : Nat) : Int) := by
  constructor
  · decide
  · decide

/-- Witness for C2 at `(type, len, w, h) = (0x54, 12, 0, 0)`. -/
theorem claim_C2_witness :
    parseHeader (buildHeader 0x54 12 0 0) =
      some { type := 0x54, payloadLen := 12, imgW := 0, imgH := 0 } :=
  claim_C2 0x54 12 0 0 (by norm_num) (by norm_num) (by norm_num) (by norm_num)

/-- C3: `parseHeader` returns `none` exactly when the input is shorter than
16 bytes or one of its first 4 bytes differs from the magic bytes. -/
theorem claim_C3 (bytes : List Nat) :
    parseHeader bytes = none ↔
      bytes.length < 16 ∨ ∃ i < 4, bytes.getD i 0 ≠ MAGIC.getD i 0 := by
  unfold parseHeader HEADER_LEN
  split_ifs with h1 h2
  · simp [h1]
  · simp only [List.any_eq_true, List.mem_range, bne_iff_ne, ne_eq] at h2
    obtain ⟨i, hi, hne⟩ := h2
    exact ⟨fun _ => Or.inr ⟨i, hi, hne⟩, fun _ => rfl⟩
  · simp only [List.any_eq_true, List.mem_range, bne_iff_ne, ne_eq, not_exists, not_and,
      not_not] at h2
    constructor
    · intro hcontra
      simp at hcontra
    · intro hr
      rcases hr with hlen | ⟨i, hi, hne⟩
      · exact absurd hlen h1
      · exact absurd (h2 i hi) hne

/-- C10: for even-length nibble sequences with entries in [0,15],
`bytesToNibbles (nibblesToBytes ns) = ns`; moreover out-of-range entries are
masked to 4 bits by `nibblesToBytes`, and an odd-length input loses exactly
its last nibble in the round-trip. -/
theorem claim_C10 (ns : List Nat) (he : ns.length % 2 = 0) (h : ∀ x ∈ ns, x < 16) :
    bytesToNibbles (nibblesToBytes ns) = ns ∧
    (∀ ms : List Nat, nibblesToBytes ms = nibblesToBytes (ms.map (· % 16))) ∧
    (∀ os : List Nat, os.length % 2 = 1 → (∀ x ∈ os, x < 16) →
      bytesToNibbles (nibblesToBytes os) = os.dropLast) :=
  ⟨roundtrip_even ns he h, nibblesToBytes_mask, roundtrip_odd⟩

/-- Witness for C10 at the concrete nibble sequence `[10, 11, 0, 15]`. -/
theorem claim_C10_witness :
    bytesToNibbles (nibblesToBytes [10, 11, 0, 15]) = [10, 11, 0, 15] :=
  (claim_C10 [10, 11, 0, 15] (by decide) (by decide)).1

end Acoust

namespace Acoust

lemma foldBest_ge_init : ∀ (l : List (Nat × Rat)) (b : Int × Rat),
    b.2 ≤ (l.foldl (fun b p => if p.2 > b.2 then ((p.1 : Int), p.2) else b) b).2
  | [], b => le_refl _
  | x :: rest, b => by
      simp only [List.foldl_cons]
      split
      · exact le_trans (le_of_lt (by assumption)) (foldBest_ge_init rest _)
      · exact foldBest_ge_init rest b

lemma foldBest_cases : ∀ (l : List Rat) (s : Nat) (b : Int × Rat),
    ((l.enumFrom s).foldl (fun b p => if p.2 > b.2 then ((p.1 : Int), p.2) else b) b = b) ∨
    ∃ i < l.length,
      ((l.enumFrom s).foldl (fun b p => if p.2 > b.2 then ((p.1 : Int), p.2) else b) b).1
          = ((s + i : Nat) : Int) ∧
      l.getD i 0 = ((l.enumFrom s).foldl (fun b p => if p.2 > b.2 then ((p.1 : Int), p.2) else b) b).2 ∧
      b.2 < ((l.enumFrom s).foldl (fun b p => if p.2 > b.2 then ((p.1 : Int), p.2) else b) b).2 ∧
      ∀ j < i, l.getD j 0 < ((l.enumFrom s).foldl (fun b p => if p.2 > b.2 then ((p.1 : Int), p.2) else b) b).2
  | [], s, b => Or.inl rfl
  | m :: rest, s, b => by
      simp only [List.enumFrom_cons, List.foldl_cons]
      by_cases hm : m > b.2
      · rw [if_pos hm]
        rcases foldBest_cases rest (s + 1) ((s : Int), m) with heq | ⟨i, hi, h1, h2, h3, h4⟩
        · refine Or.inr ⟨0, by simp, ?_, ?_, ?_, ?_⟩
          · rw [heq]; simp
          · rw [heq]; rfl
          · rw [heq]; exact hm
          · intro j hj; exact absurd hj (Nat.not_lt_zero j)
        · refine Or.inr ⟨i + 1, by simp only [List.length_cons]; omega, ?_, ?_, ?_, ?_⟩
          · rw [h1]; push_cast; ring
          · simpa using h2
          · exact lt_trans hm h3
          · intro j hj
            cases j with
            | zero => simpa using h3
            | succ j' => simpa using h4 j' (by omega)
      · rw [if_neg hm]
        rcases foldBest_cases rest (s + 1) b with heq | ⟨i, hi, h1, h2, h3, h4⟩
        · exact Or.inl heq
        · refine Or.inr ⟨i + 1, by simp only [List.length_cons]; omega, ?_, ?_, ?_, ?_⟩
          · rw [h1]; push_cast; ring
          · simpa using h2
          · exact h3
          · intro j hj
            cases j with
            | zero => simpa using lt_of_le_of_lt (le_of_not_lt hm) h3
            | succ j' => simpa using h4 j' (by omega)

end Acoust

namespace Acoust

lemma foldBest_ge_val : ∀ (l : List Rat) (s : Nat) (b : Int × Rat), ∀ m ∈ l,
    m ≤ ((l.enumFrom s).foldl (fun b p => if p.2 > b.2 then ((p.1 : Int), p.2) else b) b).2
  | m' :: rest, s, b, m, hm => by
      simp only [List.enumFrom_cons, List.foldl_cons]
      rcases List.mem_cons.mp hm with rfl | hmem
      · split
        · exact foldBest_ge_init _ _
        · exact le_trans (le_of_not_lt (by assumption)) (foldBest_ge_init _ _)
      · exact foldBest_ge_val rest (s + 1) _ m hmem

/-- C9 (amended): for a vector of 16 normalized magnitudes containing at
least one strictly positive entry, the Symbol Detector scan returns the
argmax channel with ties broken by the lowest index, an integer in [0,15];
the all-zero vector instead returns -1 (see the counterexample). -/
theorem claim_C9 (mags : List Rat) (hlen : mags.length = 16)
    (hpos : ∃ m ∈ mags, 0 < m) :
    0 ≤ (detectBest mags).1 ∧ (detectBest mags).1 < 16 ∧
    ∃ i : Nat, (detectBest mags).1 = (i : Int) ∧
      mags.getD i 0 = (detectBest mags).2 ∧
      (∀ j < 16, mags.getD j 0 ≤ (detectBest mags).2) ∧
      (∀ j < i, mags.getD j 0 < (detectBest mags).2) := by
  obtain ⟨m, hmem, hm⟩ := hpos
  have hge : m ≤ (detectBest mags).2 := by
    simpa [detectBest, List.enum] using foldBest_ge_val mags 0 (-1, 0) m hmem
  have hall : ∀ j < 16, mags.getD j 0 ≤ (detectBest mags).2 := by
    intro j hj
    have hjl : j < mags.length := by omega
    have hmemj : mags.getD j 0 ∈ mags := by
      rw [List.getD_eq_getElem?_getD, List.getElem?_eq_getElem hjl]
      exact List.getElem_mem hjl
    simpa [detectBest, List.enum] using foldBest_ge_val mags 0 (-1, 0) _ hmemj
  rcases foldBest_cases mags 0 (-1, 0) with heq | ⟨i, hi, h1, h2, h3, h4⟩
  · exfalso
    have hz : (detectBest mags).2 = 0 := by
      simp only [detectBest, List.enum]
      rw [heq]
    rw [hz] at hge
    exact absurd (lt_of_lt_of_le hm hge) (lt_irrefl 0)
  · have e1 : (detectBest mags).1 = ((i : Nat) : Int) := by
      simpa [detectBest, List.enum] using h1
    refine ⟨by rw [e1]; positivity, by rw [e1]; exact_mod_cast (by omega : i < 16), i, e1,
      by simpa [detectBest, List.enum] using h2, hall,
      fun j hj => by simpa [detectBest, List.enum] using h4 j hj⟩

set_option maxRecDepth 4000 in
/-- C9 counterexample: on an all-zero 16-channel magnitude vector the scan
never updates and the returned best symbol is -1, not in [0,15]. -/
theorem claim_C9_counterexample :
    (detectBest (List.replicate 16 (0 : Rat))).1 = -1 ∧
    ¬ (0 ≤ (detectBest (List.replicate 16 (0 : Rat))).1) := by
  constructor
  · decide
  · decide

/-- Witness for C9 at a vector with a single positive channel. -/
theorem claim_C9_witness :
    0 ≤ (detectBest [0, 0, 0, 0, 0, 1, 0, 0, 0, 0, 0, 0, 0, 0, 0, (0 : Rat)]).1 ∧
    (detectBest [0, 0, 0, 0, 0, 1, 0, 0, 0, 0, 0, 0, 0, 0, 0, (0 : Rat)]).1 < 16 :=
  ⟨(claim_C9 _ (by decide) ⟨1, by decide, by decide⟩).1,
   (claim_C9 _ (by decide) ⟨1, by decide, by decide⟩).2.1⟩

end Acoust

namespace Acoust

lemma tallyAux_length : ∀ (valid : List Int) (cs : List Nat),
    (valid.foldl (fun cs s => cs.set s.toNat (cs.getD s.toNat 0 + 1)) cs).length = cs.length
  | [], cs => rfl
  | s :: rest, cs => by
      simp only [List.foldl_cons]
      rw [tallyAux_length rest _]
      simp

lemma tally_length (valid : List Int) : (tally valid).length = 16 := by
  unfold tally
  rw [tallyAux_length]
  simp

lemma tallyAux_getD : ∀ (valid : List Int) (cs : List Nat), cs.length = 16 →
    (∀ s ∈ valid, 0 ≤ s ∧ s < 16) → ∀ i : Nat, i < 16 →
    (valid.foldl (fun cs s => cs.set s.toNat (cs.getD s.toNat 0 + 1)) cs).getD i 0
      = cs.getD i 0 + valid.count ((i : Nat) : Int)
  | [], cs, _, _, i, _ => by simp
  | s :: rest, cs, hlen, hv, i, hi => by
      simp only [List.foldl_cons, List.count_cons]
      rw [tallyAux_getD rest _ (by simp [hlen]) (fun x hx => hv x (by simp [hx])) i hi]
      have hs := hv s (by simp)
      by_cases heq : s = ((i : Nat) : Int)
      · have ht : s.toNat = i := by omega
        rw [ht]
        have hset : (cs.set i (cs.getD i 0 + 1)).getD i 0 = cs.getD i 0 + 1 := by
          rw [List.getD_eq_getElem?_getD, List.getElem?_set_self (by omega)]
          rfl
        rw [hset]
        simp [heq]
        omega
      · have ht : s.toNat ≠ i := by omega
        have hset : (cs.set s.toNat (cs.getD s.toNat 0 + 1)).getD i 0 = cs.getD i 0 := by
          rw [List.getD_eq_getElem?_getD, List.getElem?_set_ne ht, ← List.getD_eq_getElem?_getD]
        rw [hset]
        have : (((i : Nat) : Int) == s) = false := by
          simp [beq_iff_eq]
          omega
        simp [this]
        exact heq

lemma tally_getD (valid : List Int) (hv : ∀ s ∈ valid, 0 ≤ s ∧ s < 16) (i : Nat) (hi : i < 16) :
    (tally valid).getD i 0 = valid.count ((i : Nat) : Int) := by
  unfold tally
  rw [tallyAux_getD valid _ (by simp) hv i hi]
  simp [List.getElem?_replicate, hi]
  interval_cases i <;> rfl

end Acoust

namespace Acoust

lemma foldl_max_ge_init : ∀ (l : List Nat) (a : Nat), a ≤ l.foldl max a
  | [], a => le_refl a
  | x :: rest, a =>
      le_trans (le_max_left a x) (foldl_max_ge_init rest (max a x))

lemma foldl_max_ge_mem : ∀ (l : List Nat) (a : Nat), ∀ x ∈ l, x ≤ l.foldl max a
  | y :: rest, a, x, hx => by
      simp only [List.foldl_cons]
      rcases List.mem_cons.mp hx with rfl | hmem
      · exact le_trans (le_max_right a x) (foldl_max_ge_init rest _)
      · exact foldl_max_ge_mem rest _ x hmem

lemma foldl_max_mem : ∀ (l : List Nat) (a : Nat), l.foldl max a = a ∨ l.foldl max a ∈ l
  | [], a => Or.inl rfl
  | y :: rest, a => by
      simp only [List.foldl_cons]
      rcases foldl_max_mem rest (max a y) with heq | hmem
      · rw [heq]
        by_cases h : y ≤ a
        · exact Or.inl (max_eq_left h)
        · exact Or.inr (by rw [max_eq_right (le_of_not_le h)]; simp)
      · exact Or.inr (List.mem_cons_of_mem y hmem)

lemma jsMax_mem (l : List Nat) (hne : l ≠ []) : jsMax l ∈ l := by
  unfold jsMax
  rcases foldl_max_mem l 0 with heq | hmem
  · cases l with
    | nil => exact absurd rfl hne
    | cons y rest =>
        have hy : y ≤ (y :: rest).foldl max 0 := foldl_max_ge_mem _ 0 y (by simp)
        rw [heq] at hy
        rw [heq]
        simp only [Nat.le_zero] at hy
        simp [hy]
  · exact hmem

lemma le_jsMax (l : List Nat) (x : Nat) (hx : x ∈ l) : x ≤ jsMax l :=
  foldl_max_ge_mem l 0 x hx

lemma indexOf_getD : ∀ (l : List Nat) (v : Nat), v ∈ l → l.getD (l.indexOf v) 0 = v
  | y :: rest, v, hv => by
      by_cases h : y = v
      · rw [List.indexOf_cons_eq _ h]
        simpa using h
      · rw [List.indexOf_cons_ne _ h]
        simp only [List.getD_cons_succ]
        refine indexOf_getD rest v ?_
        rcases List.mem_cons.mp hv with rfl | hm
        · exact absurd rfl h
        · exact hm

lemma indexOf_first : ∀ (l : List Nat) (v : Nat) (j : Nat), j < l.indexOf v → l.getD j 0 ≠ v
  | [], v, j, hj => by simp [List.indexOf_nil] at hj
  | y :: rest, v, j, hj => by
      by_cases h : y = v
      · rw [List.indexOf_cons_eq _ h] at hj
        exact absurd hj (Nat.not_lt_zero j)
      · rw [List.indexOf_cons_ne _ h] at hj
        cases j with
        | zero => simpa using h
        | succ j' => simpa using indexOf_first rest v j' (Nat.lt_of_succ_lt_succ hj)

lemma voteWinner_spec (valid : List Int)
    (hv : ∀ s ∈ valid, 0 ≤ s ∧ s < 16) :
    voteWinner valid < 16 ∧
    (∀ i < 16, valid.count ((i : Nat) : Int) ≤ valid.count ((voteWinner valid : Nat) : Int)) ∧
    (∀ i < voteWinner valid,
      valid.count ((i : Nat) : Int) < valid.count ((voteWinner valid : Nat) : Int)) := by
  have hlen := tally_length valid
  have htne : tally valid ≠ [] := by
    intro hq; rw [hq] at hlen; simp at hlen
  have hmem := jsMax_mem _ htne
  have hw : voteWinner valid < 16 := by
    unfold voteWinner
    rw [← hlen]
    exact List.indexOf_lt_length.mpr hmem
  have hgetD : (tally valid).getD (voteWinner valid) 0 = jsMax (tally valid) :=
    indexOf_getD _ _ hmem
  have hcw : valid.count ((voteWinner valid : Nat) : Int) = jsMax (tally valid) := by
    rw [← tally_getD valid hv _ hw, hgetD]
  have hcnt : ∀ i, i < 16 → valid.count ((i : Nat) : Int) ≤ jsMax (tally valid) := by
    intro i hi
    rw [← tally_getD valid hv i hi]
    have hmemi : (tally valid).getD i 0 ∈ tally valid := by
      have hil : i < (tally valid).length := by omega
      rw [List.getD_eq_getElem?_getD, List.getElem?_eq_getElem hil]
      exact List.getElem_mem hil
    exact le_jsMax _ _ hmemi
  refine ⟨hw, fun i hi => by rw [hcw]; exact hcnt i hi, fun i hi => ?_⟩
  have hne' : (tally valid).getD i 0 ≠ jsMax (tally valid) := indexOf_first _ _ i hi
  have hlt : valid.count ((i : Nat) : Int) ≠ jsMax (tally valid) := by
    rw [← tally_getD valid hv i (by omega)]
    exact hne'
  rw [hcw]
  exact lt_of_le_of_ne (hcnt i (by omega)) hlt

end Acoust

namespace Acoust

set_option maxRecDepth 4000 in
/-- C4: when a DATA-state tick closes a symbol window whose buffer holds at
least one valid sample (all in [0,15]), the nibble appended is the sample
value with the highest occurrence count, ties broken by the lowest symbol
index; in particular window `[3,3,3,7,null]` decodes to 3 and `[2,2,5,5]`
decodes to 2.  (The accumulator-size bound keeps `liveUpdateRxImage` from
finalizing in the same tick.) -/
theorem claim_C4 (sd : Int) (thresh : Rat) (inp : TickInput) (s : Session)
    (hmode : s.mode = .data)
    (hto : inp.now - s.dataStart ≤ 45000)
    (hwin : sd ≤ inp.now - s.lastSymTime)
    (valid : List Int)
    (hvalid : valid = (s.sampleBuf ++
      [if (detectBest inp.mags).2 > thresh then some (detectBest inp.mags).1 else none]).filterMap id)
    (hne : valid ≠ [])
    (hv : ∀ v ∈ valid, 0 ≤ v ∧ v < 16)
    (hsmall : s.nibbles.length + 1 < HEADER_LEN * 2) :
    (rxTick sd thresh inp s).1.nibbles = s.nibbles ++ [voteWinner valid] ∧
    voteWinner valid < 16 ∧
    (∀ i < 16, valid.count ((i : Nat) : Int) ≤ valid.count ((voteWinner valid : Nat) : Int)) ∧
    (∀ i < voteWinner valid,
      valid.count ((i : Nat) : Int) < valid.count ((voteWinner valid : Nat) : Int)) ∧
    (rxTick 120 1 ⟨300, 0, List.replicate 16 0⟩
        ⟨.data, [], [some 3, some 3, some 3, some 7], 0, 0, 0, 100, 100⟩).1.nibbles = [3] ∧
    (rxTick 120 1 ⟨300, 0, [0, 0, 0, 0, 0, 2, 0, 0, 0, 0, 0, 0, 0, 0, 0, 0]⟩
        ⟨.data, [], [some 2, some 2, some 5], 0, 0, 0, 100, 100⟩).1.nibbles = [2] := by
  have hvote := voteWinner_spec valid hv
  refine ⟨?_, hvote.1, hvote.2.1, hvote.2.2, by decide, by decide⟩
  unfold rxTick
  simp only [hmode]
  rw [if_neg (by omega)]
  by_cases hdet : (detectBest inp.mags).2 > thresh
  · rw [if_pos hdet]
    simp only
    rw [if_pos (by simpa using hwin)]
    have hval' : valid = ((s.sampleBuf ++ [some (detectBest inp.mags).1]).filterMap id) := by
      rw [hvalid, if_pos hdet]
    rw [if_pos (by rw [← hval']; exact List.length_pos.mpr hne)]
    simp only [← hval']
    unfold liveUpdate
    rw [if_pos (by simpa using hsmall)]
  · rw [if_neg hdet]
    simp only
    rw [if_pos (by simpa using hwin)]
    have hval' : valid = ((s.sampleBuf ++ [none]).filterMap id) := by
      rw [hvalid, if_neg hdet]
    rw [if_pos (by rw [← hval']; exact List.length_pos.mpr hne)]
    simp only [← hval']
    unfold liveUpdate
    rw [if_pos (by simpa using hsmall)]

end Acoust

namespace Acoust

set_option maxRecDepth 4000 in
/-- Witness for C4: the first example window applied through the theorem. -/
theorem claim_C4_witness :
    (rxTick 120 1 ⟨300, 0, List.replicate 16 0⟩
        ⟨.data, [], [some 3, some 3, some 3, some 7], 0, 0, 0, 100, 100⟩).1.nibbles
      = [] ++ [voteWinner [3, 3, 3, 7]] :=
  (claim_C4 120 1 ⟨300, 0, List.replicate 16 0⟩
      ⟨.data, [], [some 3, some 3, some 3, some 7], 0, 0, 0, 100, 100⟩
      rfl (by decide) (by decide) [3, 3, 3, 7] (by decide) (by decide) (by decide)
      (by decide)).1

end Acoust

namespace Acoust

/-- C8: a DATA tick whose elapsed time since `dataPhaseStart` exceeds 45 s
emits exactly one TIMEOUT event, resets the session (IDLE, empty buffers) and
does nothing else in that tick. -/
theorem claim_C8 (sd : Int) (thresh : Rat) (inp : TickInput) (s : Session)
    (hmode : s.mode = .data)
    (hto : 45000 < inp.now - s.dataStart) :
    rxTick sd thresh inp s = (resetSession s, [.timeout]) ∧
    (resetSession s).mode = .idle ∧ (resetSession s).nibbles = [] ∧
    (resetSession s).sampleBuf = [] ∧ (resetSession s).silenceCount = 0 := by
  unfold rxTick
  simp only [hmode]
  rw [if_pos hto]
  exact ⟨rfl, rfl, rfl, rfl, rfl⟩

set_option maxRecDepth 4000 in
/-- Witness for C8 at a concrete timed-out DATA session. -/
theorem claim_C8_witness :
    rxTick 120 1 ⟨46001, 0, List.replicate 16 0⟩
        ⟨.data, [1, 2], [some 3], 5, 5, 0, 0, 100⟩
      = (resetSession ⟨.data, [1, 2], [some 3], 5, 5, 0, 0, 100⟩, [.timeout]) :=
  (claim_C8 120 1 ⟨46001, 0, List.replicate 16 0⟩
      ⟨.data, [1, 2], [some 3], 5, 5, 0, 0, 100⟩ rfl (by decide)).1

/-- C5 (amended): on preamble confirmation the machine enters the time-based
SYNC state and computes `dataStartAt = preambleFirstDetectedAt +
PREAMBLE_SYMS * sd + 60` — based on the time the preamble was FIRST detected,
not the (strictly later) confirmation time `inp.now`; SYNC then waits until
`now ≥ dataStartAt` before entering DATA. -/
theorem claim_C5 (sd : Int) (thresh : Rat) (inp : TickInput) (s : Session)
    (hsd : 0 < sd) :
    (s.mode = .idle → inp.mp > thresh → s.preambleAt ≠ 0 → sd < inp.now - s.preambleAt →
      (rxTick sd thresh inp s).1.mode = .sync ∧
      (rxTick sd thresh inp s).1.preambleEndsAt = s.preambleAt + PREAMBLE_SYMS * sd + 60 ∧
      (rxTick sd thresh inp s).2 = [.preambleDetected] ∧
      (rxTick sd thresh inp s).1.preambleEndsAt ≠ inp.now + PREAMBLE_SYMS * sd + 60) ∧
    (s.mode = .sync →
      (s.preambleEndsAt ≤ inp.now →
        (rxTick sd thresh inp s).1.mode = .data ∧
        (rxTick sd thresh inp s).1.dataStart = inp.now ∧
        (rxTick sd thresh inp s).2 = [.receivingData]) ∧
      (inp.now < s.preambleEndsAt → rxTick sd thresh inp s = (s, []))) := by
  constructor
  · intro hmode hmp hpa hconf
    unfold rxTick
    simp only [hmode]
    rw [if_pos hmp, if_neg hpa, if_pos (show sd * 1 < inp.now - s.preambleAt by omega)]
    refine ⟨rfl, rfl, rfl, ?_⟩
    simp only []
    unfold PREAMBLE_SYMS
    omega
  · intro hmode
    constructor
    · intro hend
      unfold rxTick
      simp only [hmode]
      rw [if_pos hend]
      exact ⟨rfl, rfl, rfl⟩
    · intro hend
      unfold rxTick
      simp only [hmode]
      rw [if_neg (by omega)]

set_option maxRecDepth 4000 in
/-- C5 counterexample: preamble first seen at t=10 (sd=120), confirmed at the
t=140 tick; the computed data-start time is 550 = 10 + 4*120 + 60, not
confirmation time + preamble + gap = 680. -/
theorem claim_C5_counterexample :
    (rxTick 120 1 ⟨140, 2, List.replicate 16 0⟩
        (rxTick 120 1 ⟨10, 2, List.replicate 16 0⟩ ⟨.idle, [], [], 0, 0, 0, 0, 0⟩).1)
      = (⟨.sync, [], [], 10, 550, 0, 0, 0⟩, [.preambleDetected]) ∧
    (550 : Int) ≠ 140 + PREAMBLE_SYMS * 120 + 60 := by
  constructor
  · decide
  · decide

set_option maxRecDepth 4000 in
/-- Witness for C5 at the confirming tick of the counterexample run. -/
theorem claim_C5_witness :
    (rxTick 120 1 ⟨140, 2, List.replicate 16 0⟩ ⟨.idle, [], [], 10, 0, 0, 0, 0⟩).1.preambleEndsAt
      = 10 + PREAMBLE_SYMS * 120 + 60 :=
  ((claim_C5 120 1 ⟨140, 2, List.replicate 16 0⟩ ⟨.idle, [], [], 10, 0, 0, 0, 0⟩
      (by decide)).1 rfl (by decide) (by decide) (by decide)).2.1

end Acoust

namespace Acoust

lemma nibblesToBytes_length : ∀ l : List Nat, (nibblesToBytes l).length = l.length / 2
  | [] => rfl
  | [a] => by
      show (0 : Nat) = [a].length / 2
      norm_num
  | a :: b :: rest => by
      rw [nibblesToBytes]
      simp only [List.length_cons, nibblesToBytes_length rest]
      omega

/-- C6: finalize with fewer than 32 nibbles (after even-length truncation)
reports INCOMPLETE for every such accumulator — no header parsing is ever
attempted — and `resetRxState` returns the session to IDLE with an empty
accumulator. -/
theorem claim_C6 (nibbles : List Nat) (hshort : nibbles.length < HEADER_LEN * 2) :
    finalizePacket nibbles = .incomplete (nibbles.length / 2) ∧
    (∀ s : Session, (resetSession s).mode = .idle ∧ (resetSession s).nibbles = []) := by
  constructor
  · simp only [finalizePacket, List.length_take]
    rw [if_pos (by unfold HEADER_LEN at *; omega)]
    simp only [FinalizeResult.incomplete.injEq]
    omega
  · intro s
    exact ⟨rfl, rfl⟩

/-- Witness for C6 at a 5-nibble accumulator. -/
theorem claim_C6_witness :
    finalizePacket [1, 2, 3, 4, 5] = .incomplete 2 :=
  (claim_C6 [1, 2, 3, 4, 5] (by decide)).1

lemma jsSlice_clamp (l : List Nat) (n : Nat) (L : Int) (hL : 0 ≤ L) :
    jsSlice l (n : Int) ((n : Int) + L) = (l.drop n).take L.toNat := by
  unfold jsSlice jsSliceIdx
  rw [if_neg (by omega), if_neg (by omega)]
  have hs : ((n : Int)).toNat = n := by omega
  have he : (((n : Int)) + L).toNat = n + L.toNat := by omega
  rw [hs, he]
  rcases le_total l.length n with hle | hge
  · have h1 : min (n + L.toNat) l.length = l.length := by omega
    have h2 : min n l.length = l.length := by omega
    rw [h1, h2, List.take_length, List.drop_length,
        List.drop_eq_nil_iff.mpr hle, List.take_nil]
  · have h2 : min n l.length = n := by omega
    have hX : min (n + L.toNat) l.length = n + (min (n + L.toNat) l.length - n) := by omega
    rw [h2, hX, ← List.take_drop]
    have h3 : min (n + L.toNat) l.length - n = min L.toNat (l.length - n) := by omega
    rw [h3]
    rcases le_total L.toNat (l.length - n) with h | h
    · rw [min_eq_left h]
    · rw [min_eq_right h]
      have hd : l.length - n = (l.drop n).length := by simp [List.length_drop]
      rw [hd, List.take_length, List.take_of_length_le (by simp [List.length_drop]; omega)]

end Acoust

namespace Acoust

/-- C7 (amended): when finalize parses a valid header whose parsed payload
length is nonnegative (declared length < 2^31), the payload is exactly the
received bytes from offset 16 clamped to the bytes actually available, and
the short-read case still dispatches successfully with no error result. -/
theorem claim_C7 (nibbles : List Nat) (hdr : Header)
    (hparse : parseHeader (nibblesToBytes (nibbles.take (nibbles.length / 2 * 2))) = some hdr)
    (hpos : 0 ≤ hdr.payloadLen) :
    (hdr.type = TYPE_TEXT → finalizePacket nibbles = .textReceived
      (((nibblesToBytes (nibbles.take (nibbles.length / 2 * 2))).drop HEADER_LEN).take
        hdr.payloadLen.toNat)) ∧
    (hdr.type = TYPE_IMAGE → finalizePacket nibbles = .imageReceived hdr.imgW hdr.imgH
      (((nibblesToBytes (nibbles.take (nibbles.length / 2 * 2))).drop HEADER_LEN).take
        hdr.payloadLen.toNat)) := by
  have hlen : ¬ ((nibbles.take (nibbles.length / 2 * 2)).length < HEADER_LEN * 2) := by
    intro hcon
    have hb : (nibblesToBytes (nibbles.take (nibbles.length / 2 * 2))).length < HEADER_LEN := by
      rw [nibblesToBytes_length]
      unfold HEADER_LEN at *
      omega
    unfold parseHeader at hparse
    rw [if_pos hb] at hparse
    exact Option.noConfusion hparse
  simp only [finalizePacket]
  rw [if_neg hlen, hparse]
  simp only []
  rw [jsSlice_clamp _ _ _ hpos]
  constructor
  · intro ht
    rw [if_pos ht]
  · intro ht
    rw [if_neg (by rw [ht]; decide), if_pos ht]

set_option maxRecDepth 8000 in
/-- Witness for C7: a header declaring 5 payload bytes with only 2 received;
the payload silently clamps to the 2 available bytes. -/
theorem claim_C7_witness :
    finalizePacket (bytesToNibbles (buildHeader 0x54 5 0 0 ++ [0xAB, 0xCD]))
      = .textReceived
        (((nibblesToBytes ((bytesToNibbles (buildHeader 0x54 5 0 0 ++ [0xAB, 0xCD])).take
            ((bytesToNibbles (buildHeader 0x54 5 0 0 ++ [0xAB, 0xCD])).length / 2 * 2))).drop
          HEADER_LEN).take ((5 : Int)).toNat) :=
  (claim_C7 (bytesToNibbles (buildHeader 0x54 5 0 0 ++ [0xAB, 0xCD]))
      { type := 0x54, payloadLen := 5, imgW := 0, imgH := 0 }
      (by decide) (by decide)).1 rfl

set_option maxRecDepth 8000 in
/-- C7 counterexample: a header declaring payload length 0xffffffec (parsed
as the negative int32 -20) with 84 payload bytes available; JS slice treats
the negative end index as counting from the end, so the payload is an 80-byte
slice — neither the clamp to the 84 available bytes nor the empty list. -/
theorem claim_C7_counterexample :
    (finalizePacket (bytesToNibbles
        ([0x41, 0x43, 0x53, 0x54, 0x54, 0xff, 0xff, 0xff, 0xec, 0, 0, 0, 0, 0, 0, 0]
          ++ List.replicate 84 7))).payloadOf = some (List.replicate 80 7) ∧
    ((nibblesToBytes (bytesToNibbles
        ([0x41, 0x43, 0x53, 0x54, 0x54, 0xff, 0xff, 0xff, 0xec, 0, 0, 0, 0, 0, 0, 0]
          ++ List.replicate 84 7))).drop HEADER_LEN) = List.replicate 84 7 ∧
    List.replicate 80 (7 : Nat) ≠ List.replicate 84 7 ∧
    List.replicate 80 (7 : Nat) ≠ [] := by
  refine ⟨by decide, by decide, by decide, by decide⟩

end Acoust
